import Mathlib

/-!
Verification of the multi-agent document processor (src/agents.py, src/app.py).

The development shallowly embeds the pipeline's pure logic over `List Char` /
`String`:

* the response sanitizer and JSON-recovery logic of
  `FieldExtractorAgent.process` (agents.py lines 98-140), including a faithful
  model of Python's `json.loads` (strict mode) as a fuel-indexed
  recursive-descent parser;
* the three stage wrappers (`ExtractorAgent.process`,
  `SummarizerAgent.process`, `FieldExtractorAgent.process`) with the external
  PDF library and LLM service abstracted as oracles (an `Env` of functions);
* the orchestration in `DocumentProcessor.process_document` (agents.py) and
  `process_document` / the Extract-button handler of `main` (app.py),
  with the Streamlit session-state stage tracker made explicit and every
  status assignment and agent call recorded in a trace.

All recursion is structural (fuel-indexed where the source loop is not), so
every definition evaluates on concrete inputs inside the kernel.
-/

namespace MADP

/-! ## Character classes

Python `str.strip()` and the regex class `\s` both cover the six ASCII
whitespace characters space, tab, newline, carriage return, vertical tab and
form feed (we model the ASCII fragment; the claims only exercise ASCII). -/

def isPyWS (c : Char) : Bool :=
  c == ' ' || c == '\t' || c == '\n' || c == '\r' || c == '\x0b' || c == '\x0c'

/-- Python `str.strip()` on the right: drop trailing whitespace. -/
def rstripWS (l : List Char) : List Char :=
  (l.reverse.dropWhile isPyWS).reverse

/-- Python `result.strip()` (agents.py line 106): drop leading and trailing
whitespace. -/
def stripChars (l : List Char) : List Char :=
  rstripWS (l.dropWhile isPyWS)

/-- The three-backtick fence marker. -/
def fence3 : List Char := ['`', '`', '`']

/-- The marker matched by the regex literal of agents.py line 109. -/
def fenceJson : List Char := ['`', '`', '`', 'j', 's', 'o', 'n']

/-- Fuel-indexed scanner for `re.sub(r'```json\s*', '', result)` (agents.py
line 109): scanning left to right, every occurrence of the seven-character
marker plus the maximal following whitespace run is removed; like `re.sub`,
the scan continues after the removed match and never re-examines produced
text. Fuel at least the list length makes the fuel branch unreachable. -/
def subJsonFenceF : Nat → List Char → List Char
  | 0, l => l
  | f + 1, l =>
    if l.take 7 = fenceJson then
      subJsonFenceF f ((l.drop 7).dropWhile isPyWS)
    else
      match l with
      | [] => []
      | c :: cs => c :: subJsonFenceF f cs

def subJsonFence (l : List Char) : List Char := subJsonFenceF l.length l

/-- Scanner for `re.sub(r'```\s*$', '', result)` (agents.py line 110): the
leftmost position where three backticks are followed by nothing but
whitespace up to the end is cut off (the `$` anchor makes the match run to
the end of the string, `\s*` being greedy). -/
def subTrailingFence : List Char → List Char
  | [] => []
  | c :: cs =>
    if (c :: cs).take 3 = fence3 ∧ ((c :: cs).drop 3).all isPyWS then []
    else c :: subTrailingFence cs

/-- Index of the first character satisfying `p`. -/
def idxOfFirst (p : Char → Bool) : List Char → Option Nat
  | [] => none
  | c :: cs => if p c then some 0 else (idxOfFirst p cs).map (· + 1)

/-- The `re.search(r'\{.*\}', result, re.DOTALL)` step (agents.py lines
113-115): with `.*` greedy and DOTALL, a match exists exactly when the first
opening brace precedes the last closing brace, and the match is the span
between them (inclusive); when it exists, the working string is replaced by
the span, otherwise left unchanged. -/
def braceSpan (l : List Char) : List Char :=
  match idxOfFirst (fun c => c == '{') l with
  | none => l
  | some i =>
    match idxOfFirst (fun c => c == '}') l.reverse with
    | none => l
    | some k =>
      let j := l.length - 1 - k
      if i < j then (l.take (j + 1)).drop i else l

/-- The full sanitization of agents.py lines 106-116, in source order:
strip, remove the ```json markers, remove a trailing ``` fence, isolate the
brace span. -/
def sanitizeL (l : List Char) : List Char :=
  braceSpan (subTrailingFence (subJsonFence (stripChars l)))

def sanitizeS (s : String) : String := String.mk (sanitizeL s.data)

/-- Modelled from the words of claim C4 (not from the source): trim
whitespace; remove a LEADING fenced-code marker (```json or ```) and a
trailing one, each independently of whether it is present; then take the
first-to-last brace span. Kept separate so the code's sanitizer can be
compared against the claim's description. -/
def sanitizeSpecL (l : List Char) : List Char :=
  let s1 := stripChars l
  let s2 :=
    if s1.take 7 = fenceJson then s1.drop 7
    else if s1.take 3 = fence3 then s1.drop 3
    else s1
  let s3 :=
    if 3 ≤ s2.length ∧ s2.drop (s2.length - 3) = fence3 then
      s2.take (s2.length - 3)
    else s2
  braceSpan s3

def sanitizeSpecS (s : String) : String := String.mk (sanitizeSpecL s.data)

/-! ## JSON values and Python's `json.loads`

`Json` is the shape of the Python object `json.loads` returns. Numeric
literals are kept verbatim (Python converts them to int/float; keeping the
literal preserves parse success/failure exactly and distinguishes values as
finely as the claims need). -/

inductive Json where
  | null
  | bool (b : Bool)
  | num (lit : String)
  | str (s : String)
  | arr (elems : List Json)
  | obj (entries : List (String × Json))

/-- Python dict insertion: an existing key keeps its position and gets the
new value, a new key is appended. -/
def objInsert (es : List (String × Json)) (k : String) (v : Json) :
    List (String × Json) :=
  if es.any (fun e => e.1 == k) then
    es.map (fun e => if e.1 == k then (k, v) else e)
  else es ++ [(k, v)]

/-- The `"error" in fields` test of app.py line 205: membership of a key,
false for every non-dict value. -/
def jsonHasKey (v : Json) (k : String) : Bool :=
  match v with
  | .obj es => es.any (fun e => e.1 == k)
  | _ => false

def isJsonObj : Json → Bool
  | .obj _ => true
  | _ => false

/-- JSON whitespace as `json.decoder.WHITESPACE` skips it. -/
def jsonWS (c : Char) : Bool := c == ' ' || c == '\t' || c == '\n' || c == '\r'

def skipWS (l : List Char) : List Char := l.dropWhile jsonWS

def hexVal (c : Char) : Option Nat :=
  if '0' ≤ c ∧ c ≤ '9' then some (c.toNat - 48)
  else if 'a' ≤ c ∧ c ≤ 'f' then some (c.toNat - 87)
  else if 'A' ≤ c ∧ c ≤ 'F' then some (c.toNat - 55)
  else none

/-- Python `json` string scanning (strict mode), after the opening quote:
unescaped control characters below U+0020 are rejected, the eight simple
escapes and `\uXXXX` (with surrogate pairs combined) are decoded. A lone
surrogate, which Python would keep in the str, is not representable in a
Lean `Char` and is mapped to U+FFFD (no claim exercises lone surrogates). -/
def parseStringBody : Nat → List Char → Option (List Char × List Char)
  | 0, _ => none
  | f + 1, l =>
    match l with
    | [] => none
    | '"' :: rest => some ([], rest)
    | '\\' :: esc =>
      match esc with
      | '"' :: r => (parseStringBody f r).map (fun p => ('"' :: p.1, p.2))
      | '\\' :: r => (parseStringBody f r).map (fun p => ('\\' :: p.1, p.2))
      | '/' :: r => (parseStringBody f r).map (fun p => ('/' :: p.1, p.2))
      | 'b' :: r => (parseStringBody f r).map (fun p => ('\x08' :: p.1, p.2))
      | 'f' :: r => (parseStringBody f r).map (fun p => ('\x0c' :: p.1, p.2))
      | 'n' :: r => (parseStringBody f r).map (fun p => ('\n' :: p.1, p.2))
      | 'r' :: r => (parseStringBody f r).map (fun p => ('\r' :: p.1, p.2))
      | 't' :: r => (parseStringBody f r).map (fun p => ('\t' :: p.1, p.2))
      | 'u' :: h1 :: h2 :: h3 :: h4 :: r =>
        match hexVal h1, hexVal h2, hexVal h3, hexVal h4 with
        | some a, some b, some c, some d =>
          let n := ((a * 16 + b) * 16 + c) * 16 + d
          if 0xD800 ≤ n ∧ n ≤ 0xDBFF then
            match r with
            | '\\' :: 'u' :: g1 :: g2 :: g3 :: g4 :: r2 =>
              match hexVal g1, hexVal g2, hexVal g3, hexVal g4 with
              | some a2, some b2, some c2, some d2 =>
                let n2 := ((a2 * 16 + b2) * 16 + c2) * 16 + d2
                if 0xDC00 ≤ n2 ∧ n2 ≤ 0xDFFF then
                  (parseStringBody f r2).map (fun p =>
                    (Char.ofNat (0x10000 + (n - 0xD800) * 0x400 + (n2 - 0xDC00)) :: p.1, p.2))
                else
                  (parseStringBody f r).map (fun p => ('�' :: p.1, p.2))
              | _, _, _, _ =>
                (parseStringBody f r).map (fun p => ('�' :: p.1, p.2))
            | _ => (parseStringBody f r).map (fun p => ('�' :: p.1, p.2))
          else if 0xDC00 ≤ n ∧ n ≤ 0xDFFF then
            (parseStringBody f r).map (fun p => ('�' :: p.1, p.2))
          else
            (parseStringBody f r).map (fun p => (Char.ofNat n :: p.1, p.2))
        | _, _, _, _ => none
      | _ => none
    | c :: rest =>
      if c.toNat < 0x20 then none
      else (parseStringBody f rest).map (fun p => (c :: p.1, p.2))

/-- The optional fraction and exponent of Python's `NUMBER_RE`
(`(-?(?:0|[1-9]\d*))(\.\d+)?([eE][-+]?\d+)?`), appended to the already
consumed sign and integer part; the numeric literal is kept verbatim. -/
def numTail (acc : List Char) (r : List Char) : Json × List Char :=
  let fr : List Char × List Char :=
    match r with
    | '.' :: d :: rest =>
      if d.isDigit then
        (acc ++ '.' :: (d :: rest).takeWhile Char.isDigit,
         (d :: rest).dropWhile Char.isDigit)
      else (acc, r)
    | _ => (acc, r)
  let ex : List Char × List Char :=
    match fr.2 with
    | e :: s :: rest2 =>
      if e == 'e' || e == 'E' then
        if s == '+' || s == '-' then
          match rest2 with
          | d :: _ =>
            if d.isDigit then
              (fr.1 ++ e :: s :: rest2.takeWhile Char.isDigit,
               rest2.dropWhile Char.isDigit)
            else (fr.1, fr.2)
          | [] => (fr.1, fr.2)
        else if s.isDigit then
          (fr.1 ++ e :: (s :: rest2).takeWhile Char.isDigit,
           (s :: rest2).dropWhile Char.isDigit)
        else (fr.1, fr.2)
      else (fr.1, fr.2)
    | _ => (fr.1, fr.2)
  (Json.num (String.mk ex.1), ex.2)

/-- The integer part of `NUMBER_RE`: an optional minus sign, then `0` alone
or a nonzero digit followed by digits. No match means "Expecting value". -/
def parseNumber (l : List Char) : Option (Json × List Char) :=
  match l with
  | '-' :: '0' :: r => some (numTail ['-', '0'] r)
  | '-' :: c :: r =>
    if c.isDigit then
      some (numTail ('-' :: (c :: r).takeWhile Char.isDigit)
        ((c :: r).dropWhile Char.isDigit))
    else none
  | '0' :: r => some (numTail ['0'] r)
  | c :: r =>
    if c.isDigit then
      some (numTail ((c :: r).takeWhile Char.isDigit)
        ((c :: r).dropWhile Char.isDigit))
    else none
  | [] => none

/-- Parser mode: a value, the members of an object after its first `{` (with
the already parsed entries), or the elements of an array. -/
inductive PMode where
  | value
  | members (acc : List (String × Json))
  | elems (acc : List Json)

/-- Python's `scan_once` / `JSONObject` / `JSONArray` as one fuel-indexed
function. Mirrored details: whitespace handling before and after keys,
colons, values and separators; object keys must be strings; `NaN`,
`Infinity` and `-Infinity` accepted as in the default `json.loads`;
duplicate object keys resolved by dict insertion. Fuel `2 * length + 4`
exceeds the recursion depth on every input (each unit of fuel consumes at
least one character, except the one `elems → value` hand-off per `[`). -/
def parseCore : Nat → PMode → List Char → Option (Json × List Char)
  | 0, _, _ => none
  | f + 1, .value, l =>
    match l with
    | '"' :: rest =>
      (parseStringBody (rest.length + 1) rest).map
        (fun p => (Json.str (String.mk p.1), p.2))
    | '{' :: rest =>
      (match skipWS rest with
       | '}' :: r => some (Json.obj [], r)
       | l2 => parseCore f (.members []) l2)
    | '[' :: rest =>
      (match skipWS rest with
       | ']' :: r => some (Json.arr [], r)
       | l2 => parseCore f (.elems []) l2)
    | 'n' :: 'u' :: 'l' :: 'l' :: r => some (.null, r)
    | 't' :: 'r' :: 'u' :: 'e' :: r => some (.bool true, r)
    | 'f' :: 'a' :: 'l' :: 's' :: 'e' :: r => some (.bool false, r)
    | 'N' :: 'a' :: 'N' :: r => some (.num "NaN", r)
    | 'I' :: 'n' :: 'f' :: 'i' :: 'n' :: 'i' :: 't' :: 'y' :: r =>
      some (.num "Infinity", r)
    | '-' :: 'I' :: 'n' :: 'f' :: 'i' :: 'n' :: 'i' :: 't' :: 'y' :: r =>
      some (.num "-Infinity", r)
    | _ => parseNumber l
  | f + 1, .members acc, l =>
    match l with
    | '"' :: rest =>
      match parseStringBody (rest.length + 1) rest with
      | none => none
      | some (kcs, r1) =>
        match skipWS r1 with
        | ':' :: r2 =>
          match parseCore f .value (skipWS r2) with
          | none => none
          | some (v, r3) =>
            let acc2 := objInsert acc (String.mk kcs) v
            match skipWS r3 with
            | ',' :: r4 => parseCore f (.members acc2) (skipWS r4)
            | '}' :: r4 => some (Json.obj acc2, r4)
            | _ => none
        | _ => none
    | _ => none
  | f + 1, .elems acc, l =>
    match parseCore f .value l with
    | none => none
    | some (v, r1) =>
      match skipWS r1 with
      | ',' :: r2 => parseCore f (.elems (acc ++ [v])) (skipWS r2)
      | ']' :: r2 => some (Json.arr (acc ++ [v]), r2)
      | _ => none

/-- Python `json.loads` (agents.py line 120): skip leading whitespace, scan
one value, skip trailing whitespace, and reject any extra data. -/
def parseJSONL (l : List Char) : Option Json :=
  match parseCore (2 * l.length + 4) .value (skipWS l) with
  | some (v, rest) => if skipWS rest = [] then some v else none
  | none => none

def parseJSON (s : String) : Option Json := parseJSONL s.data

/-! ## FieldExtractorAgent.process -/

/-- Line 128 of agents.py: `result[:200] + "..." if len(result) > 200 else
result` (Python slicing and `len` count code points, as `.data` does). -/
def truncateRaw (s : String) : String :=
  if s.data.length > 200 then String.mk (s.data.take 200) ++ "..." else s

/-- The `parsed_fields` fallback of agents.py lines 129-136. -/
def nullParsedFields : Json :=
  Json.obj [("date", .null), ("title", .null), ("author", .null),
    ("recipient", .null), ("main_points", .arr []), ("summary", .null)]

/-- The error-shaped record of agents.py lines 126-137. -/
def errorRecord (sanitized : String) : Json :=
  Json.obj [("error", .str "Failed to parse JSON response"),
    ("raw_response", .str (truncateRaw sanitized)),
    ("parsed_fields", nullParsedFields)]

/-- The body of `FieldExtractorAgent.process` after the LLM call returned
`raw` (agents.py lines 106-137): sanitize, parse, and on parse failure
return the error record built from the sanitized string. -/
def fieldExtractProcess (raw : String) : Json :=
  let s := sanitizeS raw
  match parseJSON s with
  | some v => v
  | none => errorRecord s

/-! ## Prompt templates

`PromptTemplate` renders with Python `str.format` semantics: `{text}` is
replaced and `{{`/`}}` become literal braces. The templates are transcribed
from agents.py lines 42-50 and 69-95, indentation included. -/

/-- The rendered summarizer prompt (agents.py lines 44-49). -/
def renderSummaryPrompt (text : String) : String :=
  "Please provide a concise summary of the following text. \n            Focus on the main points and key information:\n            \n            "
    ++ text ++ "\n            \n            Summary:"

/-- The rendered field-extraction prompt (agents.py lines 71-94). -/
def renderFieldPrompt (text : String) : String :=
  "Analyze the following text and extract key information into a JSON object.\n            Include these fields if present in the text:\n            - date: The date mentioned in the document\n            - title: The title or main topic\n            - author: The author or sender\n            - recipient: The recipient or audience\n            - main_points: A list of key points or topics\n            - summary: A brief summary of the content\n            \n            Return ONLY a valid JSON object with no additional text or explanation.\n            Example format:\n            \x7b\n                \"date\": \"2024-03-20\",\n                \"title\": \"Sample Document\",\n                \"author\": \"John Doe\",\n                \"recipient\": \"Jane Smith\",\n                \"main_points\": [\"Point 1\", \"Point 2\"],\n                \"summary\": \"Brief summary here\"\n            \x7d\n            \n            Text to analyze:\n            "
    ++ text ++ "\n            \n            JSON:"

/-! ## Agents and the two orchestrators

The two external collaborators are oracles: `pdfOpen` stands for
`pdfplumber.open` plus per-page `extract_text()` (a page with no extractable
text yields `none`, as `extract_text()` returns `None`), and `llm` stands
for the Ollama service applied to a rendered prompt. An `Except.error`
models the library/service raising. -/

structure Env where
  pdfOpen : String → Except String (List (Option String))
  llm : String → Except String String

/-- `ExtractorAgent.process` (agents.py lines 21-35): concatenate the pages'
text in order, substituting `""` for a page with none (`page.extract_text()
or ""`); wrap any failure of the PDF library in the stage's message. -/
def extractorProcess (env : Env) (pdf_path : String) : Except String String :=
  match env.pdfOpen pdf_path with
  | .error e => .error ("Error extracting text from PDF: " ++ e)
  | .ok pages => .ok (String.join (pages.map (fun pg => pg.getD "")))

/-- `SummarizerAgent.process` (agents.py lines 53-62): invoke the chain on
the summary prompt, return the raw output, wrap failures. -/
def summarizerProcess (env : Env) (text : String) : Except String String :=
  match env.llm (renderSummaryPrompt text) with
  | .error e => .error ("Error generating summary: " ++ e)
  | .ok s => .ok s

/-- `FieldExtractorAgent.process` (agents.py lines 98-140): invoke the chain
on the field prompt; a service failure is wrapped and re-raised, any
returned text goes through `fieldExtractProcess` (which never fails). -/
def fieldExtractorProcess (env : Env) (text : String) : Except String Json :=
  match env.llm (renderFieldPrompt text) with
  | .error e => .error ("Error extracting fields: " ++ e)
  | .ok raw => .ok (fieldExtractProcess raw)

/-- The dict returned by both orchestrators (agents.py lines 167-171,
app.py lines 73-77). -/
structure PipelineResult where
  extracted_text : String
  summary : String
  fields : Json

/-- One observable step of a run: a session-state stage assignment or an
agent call. -/
inductive StageName where
  | text_extraction
  | summarization
  | field_extraction
deriving DecidableEq, Repr

inductive Action where
  | setStatus (g : StageName) (v : String)
  | setProgress (g : StageName) (n : Nat)
  | callExtract (path : String)
  | callSummarize (text : String)
  | callFields (text : String)
deriving DecidableEq, Repr

/-- `DocumentProcessor.process_document` (agents.py lines 150-174): run the
three agents in order on the shared `extracted_text`; any stage exception is
wrapped with the orchestrator's message and re-raised; alongside the result,
the list of agent calls actually made is returned. -/
def processDocument (env : Env) (pdf_path : String) :
    Except String PipelineResult × List Action :=
  match extractorProcess env pdf_path with
  | .error e => (.error ("Error processing document: " ++ e), [.callExtract pdf_path])
  | .ok txt =>
    match summarizerProcess env txt with
    | .error e =>
      (.error ("Error processing document: " ++ e),
       [.callExtract pdf_path, .callSummarize txt])
    | .ok sm =>
      match fieldExtractorProcess env txt with
      | .error e =>
        (.error ("Error processing document: " ++ e),
         [.callExtract pdf_path, .callSummarize txt, .callFields txt])
      | .ok fv =>
        (.ok ⟨txt, sm, fv⟩,
         [.callExtract pdf_path, .callSummarize txt, .callFields txt])

/-! ## The app orchestrator with stage tracking (app.py lines 39-77) -/

/-- One stage's entry of `st.session_state.processing_status`. -/
structure StageInfo where
  status : String
  progress : Nat
deriving DecidableEq, Repr

structure ProcStatus where
  text_extraction : StageInfo
  summarization : StageInfo
  field_extraction : StageInfo
deriving DecidableEq, Repr

def setStage (st : ProcStatus) (g : StageName) (f : StageInfo → StageInfo) :
    ProcStatus :=
  match g with
  | .text_extraction => { st with text_extraction := f st.text_extraction }
  | .summarization => { st with summarization := f st.summarization }
  | .field_extraction => { st with field_extraction := f st.field_extraction }

/-- The session-state effect of an action; agent calls do not touch the
status dict. -/
def applyAction (st : ProcStatus) (a : Action) : ProcStatus :=
  match a with
  | .setStatus g v => setStage st g (fun i => { i with status := v })
  | .setProgress g n => setStage st g (fun i => { i with progress := n })
  | _ => st

/-- Run a straight-line block of actions, recording the state each action
saw. -/
def runSteps (st : ProcStatus) (acts : List Action) :
    ProcStatus × List (ProcStatus × Action) :=
  match acts with
  | [] => (st, [])
  | a :: rest =>
    let st2 := applyAction st a
    let out := runSteps st2 rest
    (out.1, (st, a) :: out.2)

/-- The three assignments before a stage's call (app.py lines 44-47, 54-57,
64-67): status to in_progress, progress to 0, then the midpoint 50. -/
def preCallActions (g : StageName) : List Action :=
  [.setStatus g "in_progress", .setProgress g 0, .setProgress g 50]

/-- The two assignments after a stage's call returns (app.py lines 50-51,
60-61, 70-71). -/
def postCallActions (g : StageName) : List Action :=
  [.setProgress g 100, .setStatus g "completed"]

/-- `process_document` of app.py (lines 39-77): the straight-line sequence
of status assignments and agent calls, with no exception handler — a raising
stage aborts the run, leaves the status dict as it stands and propagates the
stage's own exception. Returns the outcome, the final status dict and the
trace of (state-before, action) steps. -/
def appRun (env : Env) (pdf_path : String) (st0 : ProcStatus) :
    Except String PipelineResult × ProcStatus × List (ProcStatus × Action) :=
  let b1 := runSteps st0 (preCallActions .text_extraction ++ [.callExtract pdf_path])
  match extractorProcess env pdf_path with
  | .error e => (.error e, b1.1, b1.2)
  | .ok txt =>
    let b2 := runSteps b1.1 (postCallActions .text_extraction
      ++ preCallActions .summarization ++ [.callSummarize txt])
    match summarizerProcess env txt with
    | .error e => (.error e, b2.1, b1.2 ++ b2.2)
    | .ok sm =>
      let b3 := runSteps b2.1 (postCallActions .summarization
        ++ preCallActions .field_extraction ++ [.callFields txt])
      match fieldExtractorProcess env txt with
      | .error e => (.error e, b3.1, b1.2 ++ b2.2 ++ b3.2)
      | .ok fv =>
        let b4 := runSteps b3.1 (postCallActions .field_extraction)
        (.ok ⟨txt, sm, fv⟩, b4.1, b1.2 ++ b2.2 ++ b3.2 ++ b4.2)

/-- The status dict as the Extract handler resets it (app.py lines 115-119). -/
def resetStatus : ProcStatus :=
  ⟨⟨"in_progress", 0⟩, ⟨"pending", 0⟩, ⟨"pending", 0⟩⟩

/-- What the Extract-button handler leaves behind. -/
structure ClickOutcome where
  results : Option PipelineResult
  status : ProcStatus
  tempFileExists : Bool
  shownError : Option String

/-- The Extract-button handler of `main` (app.py lines 110-138): reset the
status dict, save the upload to a temporary file (`delete=False`, so it
exists until unlinked; the model assumes saving succeeds), run the pipeline,
and on success store the results, `os.unlink` the temporary file and show
no error. The `except` branch (lines 136-138) only logs and shows the error:
`os.unlink` on line 131 is never reached, so the temporary file survives. -/
def extractClick (env : Env) (pdf_path : String) (prev : Option PipelineResult) :
    ClickOutcome :=
  match appRun env pdf_path resetStatus with
  | (.ok r, stF, _) => ⟨some r, stF, false, none⟩
  | (.error e, stF, _) =>
    ⟨prev, stF, true, some ("Error processing document: " ++ e)⟩

/-- Whether an action is one of the two model-backed stage calls
(summarization or field extraction). -/
def isModelCall : Action → Bool
  | .callSummarize _ => true
  | .callFields _ => true
  | _ => false

/-- Whether an action is the field-extraction call. -/
def isFieldsCall : Action → Bool
  | .callFields _ => true
  | _ => false

/-! ## Helper lemmas about the sanitizer components -/

lemma take7_cons (c : Char) (rest : List Char) :
    (c :: rest).take 7 = c :: rest.take 6 := rfl

lemma take3_cons (c : Char) (rest : List Char) :
    (c :: rest).take 3 = c :: rest.take 2 := rfl

lemma take7_cons_ne {c : Char} (rest : List Char) (hc : c ≠ '`') :
    (c :: rest).take 7 ≠ fenceJson := by
  rw [take7_cons]
  intro h
  injection h with h1 _
  exact hc h1

lemma take3_cons_ne {c : Char} (rest : List Char) (hc : c ≠ '`') :
    (c :: rest).take 3 ≠ fence3 := by
  rw [take3_cons]
  intro h
  injection h with h1 _
  exact hc h1

lemma btick_mem_of_take7 {l : List Char} (h : l.take 7 = fenceJson) : '`' ∈ l := by
  have hm : '`' ∈ l.take 7 := by rw [h]; simp [fenceJson]
  exact List.take_subset _ _ hm

lemma take7_len {l : List Char} (h : l.take 7 = fenceJson) : 7 ≤ l.length := by
  have hlen := congrArg List.length h
  rw [List.length_take] at hlen
  simp only [fenceJson, List.length_cons, List.length_nil] at hlen
  omega

lemma subJsonFenceF_succ (f : Nat) (l : List Char) :
    subJsonFenceF (f + 1) l =
      if l.take 7 = fenceJson then
        subJsonFenceF f ((l.drop 7).dropWhile isPyWS)
      else
        match l with
        | [] => []
        | c :: cs => c :: subJsonFenceF f cs := rfl

lemma subJsonFenceF_nil (f : Nat) : subJsonFenceF f [] = [] := by
  cases f with
  | zero => rfl
  | succ f => rw [subJsonFenceF_succ]; simp [fenceJson]

/-- With no backtick anywhere, the ```json removal pass is the identity
(whatever the fuel). -/
lemma subJsonFenceF_id {l : List Char} (f : Nat) (h : '`' ∉ l) :
    subJsonFenceF f l = l := by
  induction f generalizing l with
  | zero => rfl
  | succ f ih =>
    rw [subJsonFenceF_succ]
    cases l with
    | nil => simp [fenceJson]
    | cons c cs =>
      have hc : c ≠ '`' := by rintro rfl; exact h (List.mem_cons_self _ _)
      rw [if_neg (take7_cons_ne cs hc)]
      have hcs : '`' ∉ cs := fun hm => h (List.mem_cons_of_mem _ hm)
      simp [ih hcs]

lemma subJsonFence_id {l : List Char} (h : '`' ∉ l) : subJsonFence l = l :=
  subJsonFenceF_id _ h

/-- A backtick-free prefix passes through the ```json removal scanner
unchanged while the scan continues behind it. -/
lemma subJsonFenceF_append {a : List Char} (l : List Char) (f : Nat)
    (h : '`' ∉ a) :
    subJsonFenceF (a.length + f) (a ++ l) = a ++ subJsonFenceF f l := by
  induction a with
  | nil => simp
  | cons c a ih =>
    have hc : c ≠ '`' := by rintro rfl; exact h (List.mem_cons_self _ _)
    have ha : '`' ∉ a := fun hm => h (List.mem_cons_of_mem _ hm)
    have hfuel : (c :: a).length + f = (a.length + f) + 1 := by
      simp [Nat.add_right_comm]
    rw [List.cons_append, hfuel, subJsonFenceF_succ,
      if_neg (take7_cons_ne (a ++ l) hc)]
    simp [ih ha]

/-- Fuel does not matter once it covers the list length. -/
lemma subJsonFenceF_fuel {f g : Nat} {l : List Char} (hf : l.length ≤ f)
    (hg : l.length ≤ g) : subJsonFenceF f l = subJsonFenceF g l := by
  induction f generalizing g l with
  | zero =>
    have : l = [] := List.eq_nil_of_length_eq_zero (Nat.le_zero.mp hf)
    subst this
    rw [subJsonFenceF_nil, subJsonFenceF_nil]
  | succ f ih =>
    cases g with
    | zero =>
      have : l = [] := List.eq_nil_of_length_eq_zero (Nat.le_zero.mp hg)
      subst this
      rw [subJsonFenceF_nil, subJsonFenceF_nil]
    | succ g =>
      by_cases h7 : l.take 7 = fenceJson
      · have h7l := take7_len h7
        have hlen : ((l.drop 7).dropWhile isPyWS).length ≤ l.length - 7 := by
          calc ((l.drop 7).dropWhile isPyWS).length
              ≤ (l.drop 7).length := (List.dropWhile_sublist _).length_le
            _ = l.length - 7 := List.length_drop _ _
        rw [subJsonFenceF_succ, subJsonFenceF_succ, if_pos h7, if_pos h7]
        exact ih (by omega) (by omega)
      · rw [subJsonFenceF_succ, subJsonFenceF_succ, if_neg h7, if_neg h7]
        cases l with
        | nil => rfl
        | cons c cs =>
          simp only [List.length_cons] at hf hg
          have hrec := ih (g := g) (l := cs) (by omega) (by omega)
          simp [hrec]

lemma subTrailingFence_cons (c : Char) (cs : List Char) :
    subTrailingFence (c :: cs) =
      if (c :: cs).take 3 = fence3 ∧ ((c :: cs).drop 3).all isPyWS then []
      else c :: subTrailingFence cs := rfl

/-- With no backtick anywhere, the trailing-fence removal is the identity. -/
lemma subTrailingFence_id {l : List Char} (h : '`' ∉ l) :
    subTrailingFence l = l := by
  induction l with
  | nil => rfl
  | cons c cs ih =>
    have hc : c ≠ '`' := by rintro rfl; exact h (List.mem_cons_self _ _)
    have hcs : '`' ∉ cs := fun hm => h (List.mem_cons_of_mem _ hm)
    rw [subTrailingFence_cons, if_neg (fun hand => take3_cons_ne cs hc hand.1),
      ih hcs]

/-- A trailing fence after a backtick-free prefix, followed by whitespace
only, is cut away entirely. -/
lemma subTrailingFence_cut {a w : List Char} (ha : '`' ∉ a)
    (hw : w.all isPyWS) : subTrailingFence (a ++ fence3 ++ w) = a := by
  induction a with
  | nil =>
    have h1 : ([] : List Char) ++ fence3 ++ w = '`' :: ('`' :: ('`' :: w)) := rfl
    rw [h1, subTrailingFence_cons, if_pos ⟨rfl, hw⟩]
  | cons c a ih =>
    have hc : c ≠ '`' := by rintro rfl; exact ha (List.mem_cons_self _ _)
    have ha' : '`' ∉ a := fun hm => ha (List.mem_cons_of_mem _ hm)
    have h2 : (c :: a) ++ fence3 ++ w = c :: (a ++ fence3 ++ w) := by
      simp [List.cons_append]
    rw [h2, subTrailingFence_cons,
      if_neg (fun hand => take3_cons_ne _ hc hand.1), ih ha']

/-! ## Helper lemmas about the brace-span step -/

lemma idxOfFirst_cons_pos {p : Char → Bool} {c : Char} (l : List Char)
    (h : p c = true) : idxOfFirst p (c :: l) = some 0 := by
  simp [idxOfFirst, h]

lemma idxOfFirst_append_left {p : Char → Bool} {a : List Char} (l : List Char)
    (h : ∀ c ∈ a, p c = false) :
    idxOfFirst p (a ++ l) = (idxOfFirst p l).map (· + a.length) := by
  induction a with
  | nil => cases hi : idxOfFirst p l <;> simp [hi]
  | cons c a ih =>
    have hc := h c (List.mem_cons_self c a)
    have ha : ∀ d ∈ a, p d = false := fun d hd => h d (List.mem_cons_of_mem _ hd)
    rw [List.cons_append, idxOfFirst]
    simp only [hc, Bool.false_eq_true, if_false, ih ha]
    cases hi : idxOfFirst p l <;> simp [hi, Nat.add_assoc, Nat.add_comm 1]

/-- The regex brace-span step on prose + object + prose: with no opening
brace in the leading prose and no closing brace in the trailing prose, the
span from the first `{` to the last `}` is exactly the object. -/
lemma braceSpan_embed {a m b : List Char} (hA : '{' ∉ a) (hB : '}' ∉ b)
    (hm1 : m.head? = some '{') (hm2 : m.getLast? = some '}') :
    braceSpan (a ++ m ++ b) = m := by
  cases m with
  | nil => simp at hm1
  | cons c m' =>
    have hc : c = '{' := by simpa using hm1
    subst hc
    rw [List.getLast?_eq_head?_reverse] at hm2
    obtain ⟨t, ht⟩ : ∃ t, ('{' :: m').reverse = '}' :: t := by
      cases hrev : ('{' :: m').reverse with
      | nil => rw [hrev] at hm2; simp at hm2
      | cons d t =>
        rw [hrev] at hm2
        simp only [List.head?_cons, Option.some.injEq] at hm2
        exact ⟨t, by rw [hm2]⟩
    have hm'ne : m' ≠ [] := by
      rintro rfl
      simp only [List.reverse_cons, List.reverse_nil, List.nil_append] at ht
      injection ht with h1 _
      exact absurd h1 (by decide)
    have hm'len : 1 ≤ m'.length := by
      cases m' with
      | nil => exact absurd rfl hm'ne
      | cons _ _ => simp
    have hopenA : ∀ d ∈ a, (d == '{') = false := by
      intro d hd
      have : d ≠ '{' := by rintro rfl; exact hA hd
      simpa using this
    have hcloseB : ∀ d ∈ b.reverse, (d == '}') = false := by
      intro d hd
      have : d ≠ '}' := by rintro rfl; exact hB (List.mem_reverse.mp hd)
      simpa using this
    have hopen : idxOfFirst (fun x => x == '{') (a ++ '{' :: m' ++ b) =
        some a.length := by
      rw [List.append_assoc, idxOfFirst_append_left _ hopenA,
        List.cons_append, idxOfFirst_cons_pos _ (by decide)]
      simp
    have hclose : idxOfFirst (fun x => x == '}') ((a ++ '{' :: m' ++ b).reverse) =
        some b.length := by
      rw [List.reverse_append, List.reverse_append,
        idxOfFirst_append_left _ hcloseB, ht,
        List.cons_append, idxOfFirst_cons_pos _ (by decide)]
      simp
    rw [braceSpan, hopen, hclose]
    have hj : (a ++ '{' :: m' ++ b).length - 1 - b.length =
        a.length + m'.length := by
      simp only [List.length_append, List.length_cons]
      omega
    simp only [hj]
    rw [if_pos (by omega)]
    have htake : a.length + m'.length + 1 = (a ++ '{' :: m').length := by
      simp only [List.length_append, List.length_cons]
      omega
    rw [htake, List.take_left]
    exact List.drop_left _ _

/-! ## Helper lemmas about stripping -/

lemma dropWhile_append_head {p : Char → Bool} {l : List Char} (a : List Char)
    {c : Char} (hl : l.head? = some c) (hc : p c = false) :
    (a ++ l).dropWhile p = a.dropWhile p ++ l := by
  induction a with
  | nil =>
    cases l with
    | nil => simp at hl
    | cons d t =>
      have : d = c := by simpa using hl
      subst this
      simp [List.dropWhile_cons, hc]
  | cons d a ih =>
    by_cases hd : p d = true
    · simp [List.dropWhile_cons, hd, ih]
    · simp only [Bool.not_eq_true] at hd
      simp [List.dropWhile_cons, hd]

/-- Stripping around an embedded block whose first and last characters are
not whitespace only touches the surrounding prose. -/
lemma stripChars_embed {p1 m p2 : List Char} {c d : Char}
    (hh : m.head? = some c) (hcw : isPyWS c = false)
    (hlast : m.getLast? = some d) (hdw : isPyWS d = false) :
    stripChars (p1 ++ m ++ p2) =
      p1.dropWhile isPyWS ++ m ++ rstripWS p2 := by
  have hmne : m ≠ [] := by rintro rfl; simp at hh
  have hhead2 : (m ++ p2).head? = some c := by
    cases m with
    | nil => exact absurd rfl hmne
    | cons x t => simpa using hh
  rw [stripChars, List.append_assoc, dropWhile_append_head _ hhead2 hcw]
  rw [rstripWS, List.reverse_append, List.reverse_append]
  have hrev : m.reverse.head? = some d := by
    rw [List.head?_reverse]; exact hlast
  have hhead3 : (m.reverse ++ (p1.dropWhile isPyWS).reverse).head? = some d := by
    cases hmr : m.reverse with
    | nil => rw [hmr] at hrev; simp at hrev
    | cons x t => rw [hmr] at hrev; simpa [hmr] using hrev
  rw [List.append_assoc, dropWhile_append_head _ hhead3 hdw]
  simp [rstripWS, List.reverse_append]

lemma mem_of_mem_dropWhileWS {x : Char} {l : List Char}
    (h : x ∈ l.dropWhile isPyWS) : x ∈ l :=
  (List.dropWhile_sublist _).mem h

lemma mem_of_mem_rstripWS {x : Char} {l : List Char} (h : x ∈ rstripWS l) :
    x ∈ l := by
  rw [rstripWS, List.mem_reverse] at h
  exact List.mem_reverse.mp ((List.dropWhile_sublist _).mem h)

/-- The whole sanitizer on prose + object + prose: with backtick-free text
and brace-free prose on the relevant sides, sanitization returns exactly the
embedded object. -/
lemma sanitizeL_embed {p1 m p2 : List Char} (hb1 : '`' ∉ p1) (hb2 : '`' ∉ p2)
    (hbm : '`' ∉ m) (hA : '{' ∉ p1) (hB : '}' ∉ p2)
    (hm1 : m.head? = some '{') (hm2 : m.getLast? = some '}') :
    sanitizeL (p1 ++ m ++ p2) = m := by
  rw [sanitizeL, stripChars_embed hm1 (by decide) hm2 (by decide)]
  set a := p1.dropWhile isPyWS with hadef
  set b := rstripWS p2 with hbdef
  have hba : '`' ∉ a := fun hm => hb1 (mem_of_mem_dropWhileWS hm)
  have hbb : '`' ∉ b := fun hm => hb2 (mem_of_mem_rstripWS hm)
  have hAa : '{' ∉ a := fun hm => hA (mem_of_mem_dropWhileWS hm)
  have hBb : '}' ∉ b := fun hm => hB (mem_of_mem_rstripWS hm)
  have hnob : '`' ∉ a ++ m ++ b := by
    intro hm
    rcases List.mem_append.mp hm with hm | hm
    · rcases List.mem_append.mp hm with hm | hm
      · exact hba hm
      · exact hbm hm
    · exact hbb hm
  rw [subJsonFence_id hnob, subTrailingFence_id hnob]
  exact braceSpan_embed hAa hBb hm1 hm2

/-! ## Further sanitizer lemmas for claim C4 -/

lemma subJsonFenceF_btick1 (f : Nat) {a : List Char} (ha : '`' ∉ a) :
    subJsonFenceF f ('`' :: a) = '`' :: a := by
  cases f with
  | zero => rfl
  | succ f =>
    rw [subJsonFenceF_succ, if_neg ?cond]
    · simp [subJsonFenceF_id f ha]
    case cond =>
      rw [take7_cons]
      intro h
      have h6 : a.take 6 = ['`', '`', 'j', 's', 'o', 'n'] := by
        simpa [fenceJson] using h
      have : '`' ∈ a.take 6 := by rw [h6]; simp
      exact ha (List.take_subset _ _ this)

lemma subJsonFenceF_btick2 (f : Nat) {a : List Char} (ha : '`' ∉ a) :
    subJsonFenceF f ('`' :: '`' :: a) = '`' :: '`' :: a := by
  cases f with
  | zero => rfl
  | succ f =>
    rw [subJsonFenceF_succ, if_neg ?cond]
    · simp [subJsonFenceF_btick1 f ha]
    case cond =>
      rw [take7_cons]
      intro h
      have h6 : ('`' :: a).take 6 = ['`', '`', 'j', 's', 'o', 'n'] := by
        simpa [fenceJson] using h
      have h5 : a.take 5 = ['`', 'j', 's', 'o', 'n'] := by
        cases a with
        | nil => simp at h6
        | cons x t => simpa using h6
      have : '`' ∈ a.take 5 := by rw [h5]; simp
      exact ha (List.take_subset _ _ this)

/-- A bare leading ``` fence (not followed by "json") is not removed by the
```json pass of the sanitizer. -/
lemma subJsonFenceF_fence3_id (f : Nat) {a : List Char} (ha : '`' ∉ a)
    (haj : a.take 4 ≠ ['j', 's', 'o', 'n']) :
    subJsonFenceF f (fence3 ++ a) = fence3 ++ a := by
  cases f with
  | zero => rfl
  | succ f =>
    have hsh : fence3 ++ a = '`' :: ('`' :: ('`' :: a)) := rfl
    rw [hsh, subJsonFenceF_succ, if_neg ?cond]
    · simp [subJsonFenceF_btick2 f ha]
    case cond =>
      rw [take7_cons]
      intro h
      have h6 : ('`' :: '`' :: a).take 6 = ['`', '`', 'j', 's', 'o', 'n'] := by
        simpa [fenceJson] using h
      have h4 : a.take 4 = ['j', 's', 'o', 'n'] := by simpa using h6
      exact haj h4

/-- The ```json pass removes the marker and its trailing whitespace wherever
it occurs after a backtick-free prefix, not only in leading position. -/
lemma subJsonFence_removes {a : List Char} (b : List Char) (ha : '`' ∉ a) :
    subJsonFence (a ++ fenceJson ++ b) =
      a ++ subJsonFence (b.dropWhile isPyWS) := by
  rw [subJsonFence, subJsonFence]
  have hlen : (a ++ fenceJson ++ b).length = a.length + (7 + b.length) := by
    simp [List.length_append, fenceJson]
    omega
  rw [hlen, List.append_assoc,
    subJsonFenceF_append (fenceJson ++ b) (7 + b.length) ha]
  have h7 : 7 + b.length = (6 + b.length) + 1 := by omega
  have htake : (fenceJson ++ b).take 7 = fenceJson := by
    rw [show (7 : Nat) = fenceJson.length from rfl, List.take_left]
  have hdrop : (fenceJson ++ b).drop 7 = b := by
    rw [show (7 : Nat) = fenceJson.length from rfl, List.drop_left]
  rw [h7, subJsonFenceF_succ, if_pos htake, hdrop]
  congr 1
  apply subJsonFenceF_fuel
  · calc (b.dropWhile isPyWS).length ≤ b.length :=
        (List.dropWhile_sublist _).length_le
      _ ≤ 6 + b.length := by omega
  · exact Nat.le_refl _

/-! ## Helper lemmas for the fence-wrapped case -/

lemma not_mem_of_all_ws {w : List Char} {c : Char} (hc : isPyWS c = false)
    (hw : w.all isPyWS = true) : c ∉ w := by
  intro hm
  have := List.all_eq_true.mp hw c hm
  rw [hc] at this
  exact Bool.false_ne_true this

lemma dropWhile_eq_nil_of_all {p : Char → Bool} {l : List Char}
    (h : l.all p = true) : l.dropWhile p = [] := by
  induction l with
  | nil => rfl
  | cons c cs ih =>
    simp only [List.all_cons, Bool.and_eq_true] at h
    simp [List.dropWhile_cons, h.1, ih h.2]

lemma dropWhile_id_of_head {p : Char → Bool} {l : List Char} {c : Char}
    (hh : l.head? = some c) (hc : p c = false) : l.dropWhile p = l := by
  cases l with
  | nil => rfl
  | cons d t =>
    have hd : d = c := by simpa using hh
    subst hd
    simp [List.dropWhile_cons, hc]

/-- Stripping is the identity when neither end of the string is
whitespace. -/
lemma stripChars_id {l : List Char} {c d : Char} (hh : l.head? = some c)
    (hc : isPyWS c = false) (hl : l.getLast? = some d)
    (hd : isPyWS d = false) : stripChars l = l := by
  rw [stripChars, dropWhile_id_of_head hh hc, rstripWS,
    dropWhile_id_of_head (by rw [List.head?_reverse]; exact hl) hd,
    List.reverse_reverse]

/-- The ```json pass leaves a backtick-free string followed by a bare ```
fence unchanged (three backticks alone never match the seven-character
marker). -/
lemma subJsonFenceF_append_fence3_id (f : Nat) {a : List Char}
    (ha : '`' ∉ a) : subJsonFenceF f (a ++ fence3) = a ++ fence3 := by
  induction f generalizing a with
  | zero => rfl
  | succ f ih =>
    cases a with
    | nil =>
      have h0 := subJsonFenceF_fence3_id (f + 1) (a := ([] : List Char))
        (by simp) (by decide)
      simpa using h0
    | cons c a =>
      have hc : c ≠ '`' := by rintro rfl; exact ha (List.mem_cons_self _ _)
      have ha' : '`' ∉ a := fun hm => ha (List.mem_cons_of_mem _ hm)
      rw [List.cons_append, subJsonFenceF_succ,
        if_neg (take7_cons_ne _ hc)]
      simp [ih ha']

/-- The full sanitizer on a fence-wrapped object (spec scenario B shape):
```json + whitespace + object + whitespace + ``` sanitizes to exactly the
object. -/
lemma sanitizeL_fenced {w1 w2 m : List Char} (hw1 : w1.all isPyWS = true)
    (hw2 : w2.all isPyWS = true) (hbm : '`' ∉ m)
    (hm1 : m.head? = some '{') (hm2 : m.getLast? = some '}') :
    sanitizeL (fenceJson ++ w1 ++ m ++ w2 ++ fence3) = m := by
  have hmne : m ≠ [] := by rintro rfl; simp at hm1
  have hnob : '`' ∉ m ++ w2 := by
    intro hm
    rcases List.mem_append.mp hm with hm | hm
    · exact hbm hm
    · exact not_mem_of_all_ws (by decide) hw2 hm
  have hhead : (fenceJson ++ w1 ++ m ++ w2 ++ fence3).head? = some '`' := by
    simp [fenceJson, List.append_assoc]
  have hlast : (fenceJson ++ w1 ++ m ++ w2 ++ fence3).getLast? = some '`' := by
    rw [List.getLast?_eq_head?_reverse, List.reverse_append]
    rfl
  have hstrip := stripChars_id hhead (by decide) hlast (by decide)
  have hmhead : (m ++ (w2 ++ fence3)).head? = some '{' := by
    cases m with
    | nil => exact absurd rfl hmne
    | cons x t => simpa using hm1
  have hdw : (w1 ++ (m ++ (w2 ++ fence3))).dropWhile isPyWS =
      m ++ (w2 ++ fence3) := by
    rw [dropWhile_append_head _ hmhead (by decide),
      dropWhile_eq_nil_of_all hw1, List.nil_append]
  have hjson : subJsonFence (fenceJson ++ w1 ++ m ++ w2 ++ fence3) =
      (m ++ w2) ++ fence3 := by
    rw [subJsonFence]
    have hassoc : fenceJson ++ w1 ++ m ++ w2 ++ fence3 =
        fenceJson ++ (w1 ++ (m ++ (w2 ++ fence3))) := by
      simp [List.append_assoc]
    rw [hassoc]
    have hLlen : (fenceJson ++ (w1 ++ (m ++ (w2 ++ fence3)))).length =
        (6 + (w1 ++ (m ++ (w2 ++ fence3))).length) + 1 := by
      simp only [List.length_append, fenceJson, List.length_cons,
        List.length_nil]
      omega
    have htake : (fenceJson ++ (w1 ++ (m ++ (w2 ++ fence3)))).take 7 =
        fenceJson := by
      rw [show (7 : Nat) = fenceJson.length from rfl, List.take_left]
    have hdrop : (fenceJson ++ (w1 ++ (m ++ (w2 ++ fence3)))).drop 7 =
        w1 ++ (m ++ (w2 ++ fence3)) := by
      rw [show (7 : Nat) = fenceJson.length from rfl, List.drop_left]
    rw [hLlen, subJsonFenceF_succ, if_pos htake, hdrop, hdw]
    have h1 := subJsonFenceF_append_fence3_id
      (f := 6 + (w1 ++ (m ++ (w2 ++ fence3))).length) (a := m ++ w2) hnob
    simpa [List.append_assoc] using h1
  have hcut : subTrailingFence ((m ++ w2) ++ fence3) = m ++ w2 := by
    have h0 := subTrailingFence_cut (a := m ++ w2) (w := ([] : List Char))
      hnob rfl
    simpa using h0
  have hspan : braceSpan (m ++ w2) = m := by
    have h0 := braceSpan_embed (a := ([] : List Char)) (b := w2)
      (by simp) (not_mem_of_all_ws (by decide) hw2) hm1 hm2
    simpa using h0
  rw [sanitizeL, hstrip, hjson, hcut, hspan]

/-! ## Claim theorems -/

/-- C1: for every model output whose sanitized form fails JSON parsing,
`FieldExtractorAgent.process` returns (without raising) the error record:
`error` is the fixed string, `raw_response` is the sanitized string itself
when its length is at most 200 and otherwise its first 200 characters
followed by "..." (hence exactly 203 characters), and `parsed_fields` maps
the five scalar schema keys to null and `main_points` to an empty list. -/
theorem c1_parse_failure_error_record (raw : String)
    (h : parseJSON (sanitizeS raw) = none) :
    fieldExtractProcess raw =
      Json.obj [("error", Json.str "Failed to parse JSON response"),
        ("raw_response", Json.str (truncateRaw (sanitizeS raw))),
        ("parsed_fields", Json.obj [("date", Json.null), ("title", Json.null),
          ("author", Json.null), ("recipient", Json.null),
          ("main_points", Json.arr []), ("summary", Json.null)])] ∧
    ((sanitizeS raw).data.length ≤ 200 →
      truncateRaw (sanitizeS raw) = sanitizeS raw) ∧
    (200 < (sanitizeS raw).data.length →
      (truncateRaw (sanitizeS raw)).data.length = 203) := by
  refine ⟨?_, ?_, ?_⟩
  · simp only [fieldExtractProcess, h, errorRecord, nullParsedFields]
  · intro hle
    rw [truncateRaw, if_neg (by omega)]
  · intro hgt
    rw [truncateRaw, if_pos (by omega), String.data_append]
    have h200 : ((sanitizeS raw).data.take 200).length = 200 := by
      rw [List.length_take]
      omega
    simp only [List.length_append]
    rw [h200]
    rfl

/-- C1 witness: scenario C of the spec, the model output
"Sorry, I cannot comply." (no braces): parsing fails and the error record
carries the input itself as `raw_response`. -/
theorem c1_witness :
    parseJSON (sanitizeS "Sorry, I cannot comply.") = none ∧
    fieldExtractProcess "Sorry, I cannot comply." =
      Json.obj [("error", Json.str "Failed to parse JSON response"),
        ("raw_response", Json.str "Sorry, I cannot comply."),
        ("parsed_fields", Json.obj [("date", Json.null), ("title", Json.null),
          ("author", Json.null), ("recipient", Json.null),
          ("main_points", Json.arr []), ("summary", Json.null)])] := by
  refine ⟨rfl, ?_⟩
  exact (c1_parse_failure_error_record "Sorry, I cannot comply." rfl).1

/-- C2 counterexample: the claim quantifies over every output that CONTAINS
a syntactically valid JSON object with prose around it; this output contains
the valid object `{"title": "Memo"}` followed by prose with a stray `}`,
yet the greedy first-to-last brace span is not valid JSON, so process
returns the error record instead of the parsed mapping. -/
theorem c2_counterexample :
    parseJSON "\x7b\"title\": \"Memo\"\x7d" =
      some (Json.obj [("title", Json.str "Memo")]) ∧
    sanitizeS "Here is the JSON: \x7b\"title\": \"Memo\"\x7d :-\x7d" =
      "\x7b\"title\": \"Memo\"\x7d :-\x7d" ∧
    fieldExtractProcess "Here is the JSON: \x7b\"title\": \"Memo\"\x7d :-\x7d" =
      errorRecord "\x7b\"title\": \"Memo\"\x7d :-\x7d" ∧
    jsonHasKey
      (fieldExtractProcess "Here is the JSON: \x7b\"title\": \"Memo\"\x7d :-\x7d")
      "error" = true :=
  ⟨rfl, rfl, rfl, rfl⟩

/-- C2 amended: the sanitizer isolates exactly the embedded object and
process returns the parsed mapping both (a) when the object is wrapped in
```json ... ``` fences with only whitespace between the fences and the
object (spec scenario B), and (b) when the object is surrounded by
backtick-free prose with no `{` before it and no `}` after it (the
counterexample shows brace-bearing prose breaks the claim; the bare case
is (b) with empty prose). The result has an `error` key only if the
object itself does. -/
theorem c2_amended_embedded_object (p1 m p2 w1 w2 : List Char) (v : Json)
    (hb1 : '`' ∉ p1) (hb2 : '`' ∉ p2) (hbm : '`' ∉ m)
    (hA : '{' ∉ p1) (hB : '}' ∉ p2)
    (hw1 : w1.all isPyWS = true) (hw2 : w2.all isPyWS = true)
    (hm1 : m.head? = some '{') (hm2 : m.getLast? = some '}')
    (hv : parseJSON (String.mk m) = some v) :
    sanitizeS (String.mk (p1 ++ m ++ p2)) = String.mk m ∧
    fieldExtractProcess (String.mk (p1 ++ m ++ p2)) = v ∧
    sanitizeS (String.mk (fenceJson ++ w1 ++ m ++ w2 ++ fence3)) =
      String.mk m ∧
    fieldExtractProcess (String.mk (fenceJson ++ w1 ++ m ++ w2 ++ fence3)) =
      v ∧
    (jsonHasKey v "error" = false →
      jsonHasKey (fieldExtractProcess (String.mk (p1 ++ m ++ p2))) "error"
          = false ∧
      jsonHasKey (fieldExtractProcess
          (String.mk (fenceJson ++ w1 ++ m ++ w2 ++ fence3))) "error"
          = false) := by
  have hs1 : sanitizeS (String.mk (p1 ++ m ++ p2)) = String.mk m :=
    congrArg String.mk (sanitizeL_embed hb1 hb2 hbm hA hB hm1 hm2)
  have hp1 : fieldExtractProcess (String.mk (p1 ++ m ++ p2)) = v := by
    simp only [fieldExtractProcess, hs1, hv]
  have hs2 : sanitizeS (String.mk (fenceJson ++ w1 ++ m ++ w2 ++ fence3)) =
      String.mk m :=
    congrArg String.mk (sanitizeL_fenced hw1 hw2 hbm hm1 hm2)
  have hp2 : fieldExtractProcess
      (String.mk (fenceJson ++ w1 ++ m ++ w2 ++ fence3)) = v := by
    simp only [fieldExtractProcess, hs2, hv]
  exact ⟨hs1, hp1, hs2, hp2,
    fun hk => ⟨by rw [hp1]; exact hk, by rw [hp2]; exact hk⟩⟩

/-- C2 witness: the spec's scenario B object, once wrapped in prose and
once wrapped in ```json fences, is extracted and parsed either way. -/
theorem c2_witness :
    fieldExtractProcess
        "Here is the JSON: \x7b\"date\":\"2024-03-20\",\"title\":\"Memo\",\"author\":\"A\",\"recipient\":\"B\",\"main_points\":[\"x\",\"y\"],\"summary\":\"s\"\x7d Done." =
      Json.obj [("date", Json.str "2024-03-20"), ("title", Json.str "Memo"),
        ("author", Json.str "A"), ("recipient", Json.str "B"),
        ("main_points", Json.arr [Json.str "x", Json.str "y"]),
        ("summary", Json.str "s")] ∧
    fieldExtractProcess
        "```json\n\x7b\"date\":\"2024-03-20\",\"title\":\"Memo\",\"author\":\"A\",\"recipient\":\"B\",\"main_points\":[\"x\",\"y\"],\"summary\":\"s\"\x7d\n```" =
      Json.obj [("date", Json.str "2024-03-20"), ("title", Json.str "Memo"),
        ("author", Json.str "A"), ("recipient", Json.str "B"),
        ("main_points", Json.arr [Json.str "x", Json.str "y"]),
        ("summary", Json.str "s")] := by
  have h := c2_amended_embedded_object "Here is the JSON: ".data
    "\x7b\"date\":\"2024-03-20\",\"title\":\"Memo\",\"author\":\"A\",\"recipient\":\"B\",\"main_points\":[\"x\",\"y\"],\"summary\":\"s\"\x7d".data
    " Done.".data "\n".data "\n".data
    (Json.obj [("date", Json.str "2024-03-20"), ("title", Json.str "Memo"),
      ("author", Json.str "A"), ("recipient", Json.str "B"),
      ("main_points", Json.arr [Json.str "x", Json.str "y"]),
      ("summary", Json.str "s")])
    (by decide) (by decide) (by decide) (by decide) (by decide)
    (by decide) (by decide) (by decide) (by decide) rfl
  exact ⟨h.2.1, h.2.2.2.1⟩

/-- C3 counterexample: the model output "42" sanitizes to itself and parses
as the JSON number 42, which process returns as is — a value that is
neither a JSON mapping nor the error record, so the claimed two-shape
invariant fails. -/
theorem c3_counterexample :
    fieldExtractProcess "42" = Json.num "42" ∧
    isJsonObj (fieldExtractProcess "42") = false ∧
    fieldExtractProcess "42" ≠ errorRecord (sanitizeS "42") := by
  refine ⟨rfl, rfl, fun h => ?_⟩
  exact absurd (congrArg isJsonObj h) (by decide)

/-- C3 amended: every return value of process is exactly one of: the JSON
value (of any JSON type, not necessarily a mapping) parsed from the
sanitized output, or the error record, which does carry the `error` key. -/
theorem c3_amended_dichotomy (raw : String) :
    (∃ v, parseJSON (sanitizeS raw) = some v ∧ fieldExtractProcess raw = v) ∨
    (parseJSON (sanitizeS raw) = none ∧
      fieldExtractProcess raw = errorRecord (sanitizeS raw) ∧
      jsonHasKey (fieldExtractProcess raw) "error" = true) := by
  cases hp : parseJSON (sanitizeS raw) with
  | some v =>
    exact Or.inl ⟨v, rfl, by simp [fieldExtractProcess, hp]⟩
  | none =>
    refine Or.inr ⟨rfl, by simp [fieldExtractProcess, hp], ?_⟩
    simp [fieldExtractProcess, hp, errorRecord, jsonHasKey]

/-- C4 counterexample: the claim says sanitization removes a LEADING
```json marker; the code's `re.sub` removes the marker everywhere, so on
"x ```json y" the code produces "x y" while the claim's sanitizer leaves
the string unchanged. -/
theorem c4_counterexample :
    sanitizeS "x ```json y" ≠ sanitizeSpecS "x ```json y" ∧
    sanitizeS "x ```json y" = "x y" ∧
    sanitizeSpecS "x ```json y" = "x ```json y" :=
  ⟨by decide, rfl, rfl⟩

/-- C4 amended: the sanitization trims, then removes EVERY occurrence of
```json plus following whitespace (not only a leading one), removes a
trailing ``` fence followed by whitespace only, does NOT remove a leading
bare ``` marker, and finally takes the span from the first `{` to the last
`}` when both exist in that order. -/
theorem c4_amended_sanitizer (a b w m : List Char)
    (ha : '`' ∉ a) (hw : w.all isPyWS = true)
    (haj : a.take 4 ≠ ['j', 's', 'o', 'n'])
    (hA : '{' ∉ a) (hB : '}' ∉ b)
    (hm1 : m.head? = some '{') (hm2 : m.getLast? = some '}') :
    subJsonFence (a ++ fenceJson ++ b) =
      a ++ subJsonFence (b.dropWhile isPyWS) ∧
    subJsonFence (fence3 ++ a) = fence3 ++ a ∧
    subTrailingFence (a ++ fence3 ++ w) = a ∧
    braceSpan (a ++ m ++ b) = m := by
  refine ⟨subJsonFence_removes b ha, ?_, subTrailingFence_cut ha hw,
    braceSpan_embed hA hB hm1 hm2⟩
  rw [subJsonFence]
  exact subJsonFenceF_fence3_id _ ha haj

/-- C4 amended witness: the four behaviors at concrete inputs. -/
theorem c4_witness :
    subJsonFence ("Result: ".data ++ fenceJson ++ " ok.".data) =
      "Result: ".data ++ subJsonFence (" ok.".data.dropWhile isPyWS) ∧
    subJsonFence (fence3 ++ "Result: ".data) = fence3 ++ "Result: ".data ∧
    subTrailingFence ("Result: ".data ++ fence3 ++ " \n".data) =
      "Result: ".data ∧
    braceSpan ("Result: ".data ++ "\x7b\"k\": 1\x7d".data ++ " ok.".data) =
      "\x7b\"k\": 1\x7d".data :=
  c4_amended_sanitizer "Result: ".data " ok.".data " \n".data
    "\x7b\"k\": 1\x7d".data (by decide) (by decide) (by decide)
    (by decide) (by decide) (by decide) (by decide)

/-- C10: a model output that is itself a valid JSON object containing an
"error" key parses successfully and is returned unchanged, so the presence
of the `error` key does not imply parse failure; by the error-key test such
a record is indistinguishable from the degraded record a parse failure
produces (shown here on a failing input). -/
theorem c10_error_key_ambiguity :
    parseJSON (sanitizeS "\x7b\"error\": \"none\", \"title\": \"Memo\"\x7d") =
      some (Json.obj [("error", Json.str "none"), ("title", Json.str "Memo")]) ∧
    fieldExtractProcess "\x7b\"error\": \"none\", \"title\": \"Memo\"\x7d" =
      Json.obj [("error", Json.str "none"), ("title", Json.str "Memo")] ∧
    jsonHasKey
      (fieldExtractProcess "\x7b\"error\": \"none\", \"title\": \"Memo\"\x7d")
      "error" = true ∧
    jsonHasKey (fieldExtractProcess "not json") "error" = true :=
  ⟨rfl, rfl, rfl, rfl⟩

/-- C5: for every run in which a stage raises, the orchestrators do not
swallow the error. Whichever of the three stages fails (PDF extraction, the
summarization model call, or the field-extraction model call),
`DocumentProcessor.process_document` re-raises with the orchestrator
message wrapping the failing stage's own message, returns no partial
result, and no later stage call occurs; the app orchestrator propagates the
failing stage's own message and its trace holds no later stage call
either. -/
theorem c5_extraction_failure_propagates (env : Env) (p : String)
    (st0 : ProcStatus) :
    (∀ e, env.pdfOpen p = .error e →
      processDocument env p =
        (.error ("Error processing document: " ++
          ("Error extracting text from PDF: " ++ e)),
         [Action.callExtract p]) ∧
      (appRun env p st0).1 =
        .error ("Error extracting text from PDF: " ++ e) ∧
      ((appRun env p st0).2.2.all fun it => !(isModelCall it.2)) = true) ∧
    (∀ txt e, extractorProcess env p = .ok txt →
      env.llm (renderSummaryPrompt txt) = .error e →
      processDocument env p =
        (.error ("Error processing document: " ++
          ("Error generating summary: " ++ e)),
         [Action.callExtract p, Action.callSummarize txt]) ∧
      (appRun env p st0).1 = .error ("Error generating summary: " ++ e) ∧
      ((appRun env p st0).2.2.all fun it => !(isFieldsCall it.2)) = true) ∧
    (∀ txt sm e, extractorProcess env p = .ok txt →
      env.llm (renderSummaryPrompt txt) = .ok sm →
      env.llm (renderFieldPrompt txt) = .error e →
      processDocument env p =
        (.error ("Error processing document: " ++
          ("Error extracting fields: " ++ e)),
         [Action.callExtract p, Action.callSummarize txt,
          Action.callFields txt]) ∧
      (appRun env p st0).1 = .error ("Error extracting fields: " ++ e)) := by
  refine ⟨?_, ?_, ?_⟩
  · intro e h
    have hex : extractorProcess env p =
        .error ("Error extracting text from PDF: " ++ e) := by
      rw [extractorProcess, h]
    refine ⟨?_, ?_, ?_⟩
    · simp only [processDocument, hex]
    · simp only [appRun, hex]
    · simp [appRun, hex, runSteps, applyAction, preCallActions, isModelCall]
  · intro txt e hok hllm
    have hsum : summarizerProcess env txt =
        .error ("Error generating summary: " ++ e) := by
      rw [summarizerProcess, hllm]
    refine ⟨?_, ?_, ?_⟩
    · simp only [processDocument, hok, hsum]
    · simp [appRun, hok, hsum]
    · simp [appRun, hok, hsum, runSteps, applyAction, preCallActions,
        postCallActions, isFieldsCall]
  · intro txt sm e hok hsm hfe
    have hsum : summarizerProcess env txt = .ok sm := by
      rw [summarizerProcess, hsm]
    have hf : fieldExtractorProcess env txt =
        .error ("Error extracting fields: " ++ e) := by
      rw [fieldExtractorProcess, hfe]
    exact ⟨by simp only [processDocument, hok, hsum, hf],
      by simp [appRun, hok, hsum, hf]⟩

set_option maxRecDepth 8000 in
/-- C5 witness: three concrete failing runs, one per stage — a missing
PDF, a summarization call failure, and a field-extraction call failure —
each propagated with the stage's own message and no later stage call. -/
theorem c5_witness :
    processDocument
        (⟨fun _ => Except.error "No such file or directory: tmp.pdf",
          fun _ => Except.ok "S"⟩ : Env) "a.pdf" =
      (.error ("Error processing document: " ++
        ("Error extracting text from PDF: " ++
          "No such file or directory: tmp.pdf")),
       [Action.callExtract "a.pdf"]) ∧
    processDocument
        (⟨fun _ => Except.ok [some "T"],
          fun _ => Except.error "connection refused"⟩ : Env) "b.pdf" =
      (.error ("Error processing document: " ++
        ("Error generating summary: " ++ "connection refused")),
       [Action.callExtract "b.pdf", Action.callSummarize "T"]) ∧
    processDocument
        (⟨fun _ => Except.ok [some "T"],
          fun s => if s = renderSummaryPrompt "T" then Except.ok "S"
            else Except.error "connection refused"⟩ : Env) "c.pdf" =
      (.error ("Error processing document: " ++
        ("Error extracting fields: " ++ "connection refused")),
       [Action.callExtract "c.pdf", Action.callSummarize "T",
        Action.callFields "T"]) := by
  refine ⟨?_, ?_, ?_⟩
  · exact ((c5_extraction_failure_propagates
      (⟨fun _ => Except.error "No such file or directory: tmp.pdf",
        fun _ => Except.ok "S"⟩ : Env) "a.pdf" resetStatus).1
      "No such file or directory: tmp.pdf" rfl).1
  · exact ((c5_extraction_failure_propagates
      (⟨fun _ => Except.ok [some "T"],
        fun _ => Except.error "connection refused"⟩ : Env) "b.pdf"
      resetStatus).2.1 "T" "connection refused" rfl rfl).1
  · exact ((c5_extraction_failure_propagates
      (⟨fun _ => Except.ok [some "T"],
        fun s => if s = renderSummaryPrompt "T" then Except.ok "S"
          else Except.error "connection refused"⟩ : Env) "c.pdf"
      resetStatus).2.2 "T" "S" "connection refused" rfl rfl rfl).1

/-- C6: in every run of the app orchestrator, whatever the oracles return
and whatever the initial status dict, at any step that sets summarization to
in_progress or performs the summarization call, text_extraction's status is
already "completed"; and at any step that sets field_extraction to
in_progress or performs the field-extraction call, summarization's status is
already "completed". -/
theorem c6_stage_ordering (env : Env) (p : String) (st0 : ProcStatus)
    (pre : ProcStatus) (a : Action)
    (hmem : (pre, a) ∈ (appRun env p st0).2.2) :
    ((a = Action.setStatus StageName.summarization "in_progress" ∨
        (∃ t, a = Action.callSummarize t)) →
      pre.text_extraction.status = "completed") ∧
    ((a = Action.setStatus StageName.field_extraction "in_progress" ∨
        (∃ t, a = Action.callFields t)) →
      pre.summarization.status = "completed") := by
  cases hex : extractorProcess env p with
  | error e =>
    simp only [appRun, hex, runSteps, applyAction, setStage, preCallActions,
      List.cons_append, List.nil_append, List.mem_cons, List.not_mem_nil,
      or_false, Prod.mk.injEq] at hmem
    rcases hmem with ⟨rfl, rfl⟩ | ⟨rfl, rfl⟩ | ⟨rfl, rfl⟩ | ⟨rfl, rfl⟩ <;>
      constructor <;> rintro (h | ⟨t, h⟩) <;> simp_all
  | ok txt =>
    cases hsum : summarizerProcess env txt with
    | error e =>
      simp only [appRun, hex, hsum, runSteps, applyAction, setStage,
        preCallActions, postCallActions, List.cons_append, List.nil_append,
        List.append_assoc, List.mem_append, List.mem_cons, List.not_mem_nil,
        or_false, Prod.mk.injEq] at hmem
      rcases hmem with
        (⟨rfl, rfl⟩ | ⟨rfl, rfl⟩ | ⟨rfl, rfl⟩ | ⟨rfl, rfl⟩) |
        (⟨rfl, rfl⟩ | ⟨rfl, rfl⟩ | ⟨rfl, rfl⟩ | ⟨rfl, rfl⟩ | ⟨rfl, rfl⟩ |
         ⟨rfl, rfl⟩) <;>
        constructor <;> rintro (h | ⟨t, h⟩) <;> simp_all
    | ok sm =>
      cases hf : fieldExtractorProcess env txt with
      | error e =>
        simp only [appRun, hex, hsum, hf, runSteps, applyAction, setStage,
          preCallActions, postCallActions, List.cons_append, List.nil_append,
          List.append_assoc, List.mem_append, List.mem_cons, List.not_mem_nil,
          or_false, Prod.mk.injEq] at hmem
        rcases hmem with
          (⟨rfl, rfl⟩ | ⟨rfl, rfl⟩ | ⟨rfl, rfl⟩ | ⟨rfl, rfl⟩) |
          (⟨rfl, rfl⟩ | ⟨rfl, rfl⟩ | ⟨rfl, rfl⟩ | ⟨rfl, rfl⟩ | ⟨rfl, rfl⟩ |
           ⟨rfl, rfl⟩) |
          (⟨rfl, rfl⟩ | ⟨rfl, rfl⟩ | ⟨rfl, rfl⟩ | ⟨rfl, rfl⟩ | ⟨rfl, rfl⟩ |
           ⟨rfl, rfl⟩) <;>
          constructor <;> rintro (h | ⟨t, h⟩) <;> simp_all
      | ok fv =>
        simp only [appRun, hex, hsum, hf, runSteps, applyAction, setStage,
          preCallActions, postCallActions, List.cons_append, List.nil_append,
          List.append_assoc, List.mem_append, List.mem_cons, List.not_mem_nil,
          or_false, Prod.mk.injEq] at hmem
        rcases hmem with
          (⟨rfl, rfl⟩ | ⟨rfl, rfl⟩ | ⟨rfl, rfl⟩ | ⟨rfl, rfl⟩) |
          (⟨rfl, rfl⟩ | ⟨rfl, rfl⟩ | ⟨rfl, rfl⟩ | ⟨rfl, rfl⟩ | ⟨rfl, rfl⟩ |
           ⟨rfl, rfl⟩) |
          (⟨rfl, rfl⟩ | ⟨rfl, rfl⟩ | ⟨rfl, rfl⟩ | ⟨rfl, rfl⟩ | ⟨rfl, rfl⟩ |
           ⟨rfl, rfl⟩) |
          (⟨rfl, rfl⟩ | ⟨rfl, rfl⟩) <;>
          constructor <;> rintro (h | ⟨t, h⟩) <;> simp_all

/-- C6 witness: in a concrete successful run, the step that sets
summarization to in_progress sees text_extraction already completed. -/
theorem c6_witness :
    StageInfo.status (ProcStatus.text_extraction
      ⟨⟨"completed", 100⟩, ⟨"pending", 0⟩, ⟨"pending", 0⟩⟩) = "completed" :=
  (c6_stage_ordering
    (⟨fun _ => Except.ok [some "T"], fun _ => Except.ok "S"⟩ : Env) "d.pdf"
    resetStatus ⟨⟨"completed", 100⟩, ⟨"pending", 0⟩, ⟨"pending", 0⟩⟩
    (Action.setStatus StageName.summarization "in_progress")
    (by decide)).1 (Or.inl rfl)

/-- C7 (code bug): after a run in which a stage raised, the Extract
handler's `except` branch skips the `os.unlink` of the success path, so the
temporary file still exists; no results are stored either. -/
theorem c7_temp_file_left_on_error (env : Env) (p e : String)
    (prev : Option PipelineResult) (h : env.pdfOpen p = .error e) :
    (extractClick env p prev).tempFileExists = true ∧
    (extractClick env p prev).results = prev ∧
    (extractClick env p prev).shownError =
      some ("Error processing document: " ++
        ("Error extracting text from PDF: " ++ e)) := by
  have hex : extractorProcess env p =
      .error ("Error extracting text from PDF: " ++ e) := by
    rw [extractorProcess, h]
  refine ⟨?_, ?_, ?_⟩ <;> simp [extractClick, appRun, hex]

/-- C7 witness: the concrete failing run leaves the temporary file on
disk. -/
theorem c7_witness :
    (extractClick
      (⟨fun _ => Except.error "No such file or directory: up.pdf",
        fun _ => Except.ok "s"⟩ : Env) "up.pdf" none).tempFileExists = true :=
  (c7_temp_file_left_on_error
    (⟨fun _ => Except.error "No such file or directory: up.pdf",
      fun _ => Except.ok "s"⟩ : Env) "up.pdf"
    "No such file or directory: up.pdf" none rfl).1

/-- C8: for a PDF the library can open, `ExtractorAgent.process` returns
the in-order concatenation of the pages' text with "" substituted for a
page yielding none, and does not raise; when the library fails, it raises
an error wrapping the original cause description. -/
theorem c8_extractor_concatenation (env : Env) (p : String) :
    (∀ pages, env.pdfOpen p = .ok pages →
      extractorProcess env p =
        .ok (String.join (pages.map (fun pg => pg.getD "")))) ∧
    (∀ c, env.pdfOpen p = .error c →
      extractorProcess env p =
        .error ("Error extracting text from PDF: " ++ c)) := by
  constructor
  · intro pages hp
    rw [extractorProcess, hp]
  · intro c hp
    rw [extractorProcess, hp]

/-- C8 witness: a three-page document with one empty page, and a failing
open. -/
theorem c8_witness :
    extractorProcess
        (⟨fun _ => Except.ok [some "Page one. ", none, some "Page two."],
          fun _ => Except.ok "s"⟩ : Env) "doc.pdf" =
      .ok "Page one. Page two." ∧
    extractorProcess
        (⟨fun _ => Except.error "bad PDF", fun _ => Except.ok "s"⟩ : Env)
        "doc.pdf" =
      .error "Error extracting text from PDF: bad PDF" := by
  constructor
  · exact (c8_extractor_concatenation
      (⟨fun _ => Except.ok [some "Page one. ", none, some "Page two."],
        fun _ => Except.ok "s"⟩ : Env) "doc.pdf").1
      [some "Page one. ", none, some "Page two."] rfl
  · exact (c8_extractor_concatenation
      (⟨fun _ => Except.error "bad PDF", fun _ => Except.ok "s"⟩ : Env)
      "doc.pdf").2 "bad PDF" rfl

/-- C9: whenever the app orchestrator returns without raising, all three
stage statuses are completed with progress 100 and the result's three
fields come from the respective stages: `extracted_text` from the
extractor, `summary` from the summarizer on that text, `fields` from the
field extractor on that text. -/
theorem c9_success_postcondition (env : Env) (p : String) (st0 : ProcStatus)
    (r : PipelineResult) (stF : ProcStatus) (tr : List (ProcStatus × Action))
    (h : appRun env p st0 = (.ok r, stF, tr)) :
    stF = ⟨⟨"completed", 100⟩, ⟨"completed", 100⟩, ⟨"completed", 100⟩⟩ ∧
    extractorProcess env p = .ok r.extracted_text ∧
    summarizerProcess env r.extracted_text = .ok r.summary ∧
    fieldExtractorProcess env r.extracted_text = .ok r.fields := by
  cases hex : extractorProcess env p with
  | error e => simp [appRun, hex] at h
  | ok txt =>
    cases hsum : summarizerProcess env txt with
    | error e => simp [appRun, hex, hsum] at h
    | ok sm =>
      cases hf : fieldExtractorProcess env txt with
      | error e => simp [appRun, hex, hsum, hf] at h
      | ok fv =>
        simp only [appRun, hex, hsum, hf, runSteps, applyAction, setStage,
          preCallActions, postCallActions, Prod.mk.injEq] at h
        obtain ⟨h1, h2, -⟩ := h
        have hr : r = ⟨txt, sm, fv⟩ := by
          injection h1 with h1'
          exact h1'.symm
        subst hr
        subst h2
        exact ⟨rfl, rfl, hsum, hf⟩

/-- C9 witness: a concrete successful three-page run ends with every stage
completed at 100 and the populated result. -/
theorem c9_witness :
    (⟨⟨"completed", 100⟩, ⟨"completed", 100⟩, ⟨"completed", 100⟩⟩ :
        ProcStatus) =
      ⟨⟨"completed", 100⟩, ⟨"completed", 100⟩, ⟨"completed", 100⟩⟩ ∧
    extractorProcess
        (⟨fun _ => Except.ok [some "A", some "B", some "C"],
          fun _ => Except.ok "\x7b\"title\": \"T\"\x7d"⟩ : Env) "d.pdf" =
      .ok "ABC" ∧
    summarizerProcess
        (⟨fun _ => Except.ok [some "A", some "B", some "C"],
          fun _ => Except.ok "\x7b\"title\": \"T\"\x7d"⟩ : Env) "ABC" =
      .ok "\x7b\"title\": \"T\"\x7d" ∧
    fieldExtractorProcess
        (⟨fun _ => Except.ok [some "A", some "B", some "C"],
          fun _ => Except.ok "\x7b\"title\": \"T\"\x7d"⟩ : Env) "ABC" =
      .ok (Json.obj [("title", Json.str "T")]) :=
  c9_success_postcondition
    (⟨fun _ => Except.ok [some "A", some "B", some "C"],
      fun _ => Except.ok "\x7b\"title\": \"T\"\x7d"⟩ : Env) "d.pdf"
    resetStatus
    ⟨"ABC", "\x7b\"title\": \"T\"\x7d", Json.obj [("title", Json.str "T")]⟩
    ⟨⟨"completed", 100⟩, ⟨"completed", 100⟩, ⟨"completed", 100⟩⟩
    ((appRun (⟨fun _ => Except.ok [some "A", some "B", some "C"],
      fun _ => Except.ok "\x7b\"title\": \"T\"\x7d"⟩ : Env) "d.pdf"
      resetStatus).2.2)
    rfl

end MADP
